import Mathlib

/-!
Verification development for the `httpFetch` client-side HTTP access layer
(`src/httpFetch.ts`).

The embedding translates the source faithfully:

* JavaScript's `JSON.parse` is modelled by an executable recursive-descent
  JSON parser `jsonParse : String → Option Json` (`none` models a thrown
  `SyntaxError`).  Numbers are kept as their source lexemes, which is
  faithful for every comparison made in this development.
* JavaScript objects used as string-keyed records are modelled as association
  lists `List (String × _)` in insertion order (JS object keys are unique and
  enumerate in insertion order for string keys).
* Promise resolution/rejection is modelled by `Except`: `.error` is a
  rejected promise carrying the rejection value, `.ok` a fulfilled one.
* The module-level `DEBUG` build flag is a parameter `debug : Bool`.
* `window.location.replace` and `console.error` are side effects; they are
  modelled by recording, in `interceptError`'s output, the number of
  navigations performed and the error value passed to the logger.
-/

/-- A JSON value as produced by `JSON.parse`.  Numeric literals are kept as
their lexeme; object members are kept in textual order. -/
inductive Json where
  | null : Json
  | bool (b : Bool) : Json
  | num (lexeme : String) : Json
  | str (s : String) : Json
  | arr (elems : List Json) : Json
  | obj (members : List (String × Json)) : Json

/-- JSON whitespace characters. -/
def isJsonWs (c : Char) : Bool :=
  c = ' ' || c = '\t' || c = '\n' || c = '\r'

/-- Skip leading JSON whitespace. -/
def skipWs : List Char → List Char
  | [] => []
  | c :: cs => if isJsonWs c then skipWs cs else c :: cs

/-- Value of a hexadecimal digit, if the character is one. -/
def hexVal (c : Char) : Option Nat :=
  if '0' ≤ c ∧ c ≤ '9' then some (c.toNat - '0'.toNat)
  else if 'a' ≤ c ∧ c ≤ 'f' then some (c.toNat - 'a'.toNat + 10)
  else if 'A' ≤ c ∧ c ≤ 'F' then some (c.toNat - 'A'.toNat + 10)
  else none

/-- Consume an expected literal spelled as a character list. -/
def stripChars : List Char → List Char → Option (List Char)
  | [], l => some l
  | _ :: _, [] => none
  | p :: ps, c :: cs => if p = c then stripChars ps cs else none

/-- Parse the remainder of a JSON string literal (the opening quote already
consumed), decoding escapes; fuel-indexed for structural recursion. -/
def parseJsonString : Nat → List Char → Option (String × List Char)
  | 0, _ => none
  | _ + 1, [] => none
  | fuel + 1, c :: cs =>
    if c = '"' then some ("", cs)
    else if c = '\\' then
      match cs with
      | [] => none
      | e :: cs' =>
        if e = '"' then (parseJsonString fuel cs').map (fun r => (⟨'"' :: r.1.data⟩, r.2))
        else if e = '\\' then (parseJsonString fuel cs').map (fun r => (⟨'\\' :: r.1.data⟩, r.2))
        else if e = '/' then (parseJsonString fuel cs').map (fun r => (⟨'/' :: r.1.data⟩, r.2))
        else if e = 'b' then (parseJsonString fuel cs').map (fun r => (⟨Char.ofNat 8 :: r.1.data⟩, r.2))
        else if e = 'f' then (parseJsonString fuel cs').map (fun r => (⟨Char.ofNat 12 :: r.1.data⟩, r.2))
        else if e = 'n' then (parseJsonString fuel cs').map (fun r => (⟨'\n' :: r.1.data⟩, r.2))
        else if e = 'r' then (parseJsonString fuel cs').map (fun r => (⟨'\r' :: r.1.data⟩, r.2))
        else if e = 't' then (parseJsonString fuel cs').map (fun r => (⟨'\t' :: r.1.data⟩, r.2))
        else if e = 'u' then
          match cs' with
          | a :: b :: c2 :: d :: rest =>
            match hexVal a, hexVal b, hexVal c2, hexVal d with
            | some ha, some hb, some hc, some hd =>
              (parseJsonString fuel rest).map
                (fun r => (⟨Char.ofNat (((ha * 16 + hb) * 16 + hc) * 16 + hd) :: r.1.data⟩, r.2))
            | _, _, _, _ => none
          | _ => none
        else none
    else if c.toNat < 32 then none
    else (parseJsonString fuel cs).map (fun r => (⟨c :: r.1.data⟩, r.2))

/-- Parse the optional fraction part of a JSON number, returning its lexeme. -/
def parseFrac : List Char → Option (List Char × List Char)
  | '.' :: r =>
    let (ds, r2) := r.span Char.isDigit
    if ds.isEmpty then none else some ('.' :: ds, r2)
  | l => some ([], l)

/-- Parse the optional exponent part of a JSON number, returning its lexeme. -/
def parseExp : List Char → Option (List Char × List Char)
  | [] => some ([], [])
  | c :: r =>
    if c = 'e' ∨ c = 'E' then
      let (sgn, r1) :=
        match r with
        | s :: r' => if s = '+' ∨ s = '-' then ([s], r') else (([] : List Char), s :: r')
        | [] => ([], [])
      let (ds, r2) := r1.span Char.isDigit
      if ds.isEmpty then none else some (c :: (sgn ++ ds), r2)
    else some ([], c :: r)

/-- Parse a JSON number, returning its lexeme (JSON grammar:
`-? (0 | [1-9][0-9]*) frac? exp?`, no leading zeros). -/
def parseNumber (l : List Char) : Option (String × List Char) :=
  let (neg, l1) := match l with | '-' :: r => (['-'], r) | _ => (([] : List Char), l)
  match l1.head? with
  | none => none
  | some c =>
    if ¬ c.isDigit then none
    else
      let (ip, l2) := l1.span Char.isDigit
      if 1 < ip.length ∧ ip.head? = some '0' then none
      else
        match parseFrac l2 with
        | none => none
        | some (fp, l3) =>
          match parseExp l3 with
          | none => none
          | some (ep, l4) => some (⟨neg ++ ip ++ fp ++ ep⟩, l4)

mutual

/-- Parse one JSON value (fuel-indexed). -/
def parseValue : Nat → List Char → Option (Json × List Char)
  | 0, _ => none
  | fuel + 1, l =>
    match skipWs l with
    | [] => none
    | c :: cs =>
      if c = 'n' then (stripChars ['u', 'l', 'l'] cs).map (fun r => (Json.null, r))
      else if c = 't' then (stripChars ['r', 'u', 'e'] cs).map (fun r => (Json.bool true, r))
      else if c = 'f' then (stripChars ['a', 'l', 's', 'e'] cs).map (fun r => (Json.bool false, r))
      else if c = '"' then (parseJsonString (fuel + 1) cs).map (fun r => (Json.str r.1, r.2))
      else if c = '[' then
        match skipWs cs with
        | ']' :: rest => some (Json.arr [], rest)
        | l2 => (parseArrayItems fuel l2).map (fun r => (Json.arr r.1, r.2))
      else if c = '{' then
        match skipWs cs with
        | '}' :: rest => some (Json.obj [], rest)
        | l2 => (parseObjectItems fuel l2).map (fun r => (Json.obj r.1, r.2))
      else (parseNumber (c :: cs)).map (fun r => (Json.num r.1, r.2))

/-- Parse the elements of a non-empty JSON array up to the closing bracket. -/
def parseArrayItems : Nat → List Char → Option (List Json × List Char)
  | 0, _ => none
  | fuel + 1, l =>
    match parseValue fuel l with
    | none => none
    | some (v, rest) =>
      match skipWs rest with
      | ',' :: rest2 => (parseArrayItems fuel rest2).map (fun r => (v :: r.1, r.2))
      | ']' :: rest2 => some ([v], rest2)
      | _ => none

/-- Parse the members of a non-empty JSON object up to the closing brace. -/
def parseObjectItems : Nat → List Char → Option (List (String × Json) × List Char)
  | 0, _ => none
  | fuel + 1, l =>
    match skipWs l with
    | '"' :: cs =>
      match parseJsonString (fuel + 1) cs with
      | none => none
      | some (k, rest) =>
        match skipWs rest with
        | ':' :: rest2 =>
          match parseValue fuel rest2 with
          | none => none
          | some (v, rest3) =>
            match skipWs rest3 with
            | ',' :: rest4 => (parseObjectItems fuel rest4).map (fun r => ((k, v) :: r.1, r.2))
            | '}' :: rest4 => some ([(k, v)], rest4)
            | _ => none
        | _ => none
    | _ => none

end

/-- Model of JavaScript's `JSON.parse`: `some` is the parsed value, `none`
models a thrown `SyntaxError` (empty input, malformed text, trailing
garbage). -/
def jsonParse (s : String) : Option Json :=
  match parseValue (s.length + 1) s.data with
  | none => none
  | some (v, rest) => if (skipWs rest).isEmpty then some v else none

example : jsonParse "" = none := by rfl
example : jsonParse "null" = some Json.null := by rfl
example : jsonParse " \x7b\"id\": 7\x7d " = some (Json.obj [("id", Json.num "7")]) := by rfl
example : jsonParse "\x7b\"reason\":\"missing\"\x7d" = some (Json.obj [("reason", Json.str "missing")]) := by rfl
example : jsonParse "[1,true,\"x\"]" = some (Json.arr [Json.num "1", Json.bool true, Json.str "x"]) := by rfl
example : jsonParse "not json" = none := by rfl
example : jsonParse "\x7b\"a\":1,\x7d" = none := by rfl
example : jsonParse "01" = none := by rfl
example : jsonParse "-2.5e+3" = some (Json.num "-2.5e+3") := by rfl

/-! ## Data model: error classes, responses, result envelope -/

/-- The runtime class of an error object in the source's class hierarchy:
`AppError` is the base class, the other three extend it
(`class NotFoundError extends AppError` …). -/
inductive ErrorClass where
  | appError : ErrorClass
  | badRequestError : ErrorClass
  | unauthorizedError : ErrorClass
  | notFoundError : ErrorClass
deriving DecidableEq

/-- The JS value stored in an error's `body` field: either a
JSON-representable value (the default `null`, a parsed body, or the string
`'Technical error'`) or a raw non-JSON exception object kept as diagnostic
context by `handleUnexpectedError`. -/
inductive ErrBody where
  | js (j : Json) : ErrBody
  | rawFault (name msg : String) : ErrBody

/-- An `AppError` (or subclass) instance: `cls` is the runtime constructor,
`body`/`headers` are the constructor fields (`null` defaults modelled by
`ErrBody.js Json.null` and `Option.none`). -/
structure AppError where
  cls : ErrorClass
  body : ErrBody
  headers : Option (List (String × String))

/-- `new AppError(body, headers)`. -/
def AppError.make (body : ErrBody) (headers : Option (List (String × String))) : AppError :=
  ⟨ErrorClass.appError, body, headers⟩

/-- `new BadRequestError(body, headers)`. -/
def BadRequestError.make (body : ErrBody) (headers : Option (List (String × String))) : AppError :=
  ⟨ErrorClass.badRequestError, body, headers⟩

/-- `new UnauthorizedError(body, headers)`. -/
def UnauthorizedError.make (body : ErrBody) (headers : Option (List (String × String))) : AppError :=
  ⟨ErrorClass.unauthorizedError, body, headers⟩

/-- `new NotFoundError(body, headers)`. -/
def NotFoundError.make (body : ErrBody) (headers : Option (List (String × String))) : AppError :=
  ⟨ErrorClass.notFoundError, body, headers⟩

/-- `error instanceof AppError`: true for the base class and every subclass. -/
def instanceofAppError (_ : AppError) : Bool := true

/-- `error instanceof UnauthorizedError` (the class has no subclasses, so
this is exactly a class check). -/
def instanceofUnauthorizedError (e : AppError) : Bool :=
  e.cls = ErrorClass.unauthorizedError

/-- `error.constructor === AppError`: exactly the base class, excluding the
named subclasses. -/
def constructorIsAppError (e : AppError) : Bool :=
  e.cls = ErrorClass.appError

/-- `class AppResponse { body; headers }` as built by `handleResponse`. -/
structure AppResponse where
  body : Json
  headers : List (String × String)

/-- `class Result<T> { succeeded; payload; error }`.  `payload` is a JS value
(`Json.null` models both the explicit `null` passed by `interceptError` and
a parsed `null` body); `error = none` models the omitted (`undefined`)
argument of the success constructor call. -/
structure Result where
  succeeded : Bool
  payload : Json
  error : Option AppError

/-! ## Body codec and header normalizer -/

/-- `HttpHelper.parseBody`: `JSON.parse` under `try`; a parse failure is
absorbed — a truthy (non-empty) `bodyText` yields `{ bodyText }`, otherwise
the initial `{}` is kept.  Total by construction: never raises. -/
def parseBody (bodyText : String) : Json :=
  match jsonParse bodyText with
  | some b => b
  | none =>
    if bodyText = "" then Json.obj []
    else Json.obj [("bodyText", Json.str bodyText)]

/-- `headersObject[key] = value`: set a property on a JS record, overwriting
an existing key in place or appending a new one. -/
def setProp (o : List (String × String)) (k v : String) : List (String × String) :=
  if o.any (fun kv => kv.1 = k) then
    o.map (fun kv => if kv.1 = k then (k, v) else kv)
  else o ++ [(k, v)]

/-- `HttpHelper.readHeaders`: iterate the transport header collection in its
native order and build a plain record. -/
def readHeaders (headers : List (String × String)) : List (String × String) :=
  headers.foldl (fun acc kv => setProp acc kv.1 kv.2) []

/-! ## Outcome classifier and transport fault handler -/

namespace Status

def Ok : Nat := 200
def Unassigned : Nat := 299
def BadRequest : Nat := 400
def Unauthorized : Nat := 401
def NotFound : Nat := 404

end Status

/-- `HttpHelper.isError`: status strictly below 200 or strictly above 299. -/
def isError (status : Nat) : Bool :=
  status < Status.Ok || status > Status.Unassigned

/-- `HttpHelper.handleExpectedError`: read the body text, parse it, and
reject with the variant selected by the exact status switch
(`400/401/404`, default `AppError`). -/
def handleExpectedError (status : Nat) (bodyText : String)
    (headers : List (String × String)) : Except AppError AppResponse :=
  let body := parseBody bodyText
  if status = Status.BadRequest then
    Except.error (BadRequestError.make (ErrBody.js body) (some headers))
  else if status = Status.Unauthorized then
    Except.error (UnauthorizedError.make (ErrBody.js body) (some headers))
  else if status = Status.NotFound then
    Except.error (NotFoundError.make (ErrBody.js body) (some headers))
  else
    Except.error (AppError.make (ErrBody.js body) (some headers))

/-- `HttpHelper.handleResponse`: normalize headers, branch on `isError`,
and on success parse the body into an `AppResponse`. -/
def handleResponse (status : Nat) (bodyText : String)
    (rawHeaders : List (String × String)) : Except AppError AppResponse :=
  let headers := readHeaders rawHeaders
  if isError status then handleExpectedError status bodyText headers
  else Except.ok ⟨parseBody bodyText, headers⟩

/-- A value arriving at the `.catch` handler: either an `AppError` (or
subclass) re-propagated from `handleExpectedError`, or a raw exception such
as a network failure. -/
inductive Fault where
  | typed (e : AppError) : Fault
  | raw (name msg : String) : Fault

/-- `HttpHelper.handleUnexpectedError`: wrap anything that is not already an
`AppError` into `new AppError(error)` (the fault becomes the `body`, headers
default to `null`), and re-reject; an `AppError` is re-rejected unchanged. -/
def handleUnexpectedError (fault : Fault) : Except AppError AppResponse :=
  match fault with
  | Fault.typed e => Except.error e
  | Fault.raw name msg => Except.error (AppError.make (ErrBody.rawFault name msg) none)

/-! ## Error interception policy and verb operations -/

/-- What `interceptError` did: how many times `window.location.replace('/')`
ran, the error value handed to `console.error`, and the returned `Result`. -/
structure InterceptOut where
  navigations : Nat
  logged : AppError
  result : Result

/-- `interceptError`: navigate on `UnauthorizedError`; in a non-debug build
overwrite the body of an error whose constructor is exactly `AppError` with
`'Technical error'`; log the (shared, possibly already mutated) error
object; return `new Result(false, null, error)`.  `debug` is the build's
`DEBUG` flag. -/
def interceptError (debug : Bool) (error : AppError) : InterceptOut :=
  let navigations := if instanceofUnauthorizedError error then 1 else 0
  let error' :=
    if ¬ debug ∧ constructorIsAppError error then
      { error with body := ErrBody.js (Json.str "Technical error") }
    else error
  { navigations := navigations
    logged := error'
    result := ⟨false, Json.null, some error'⟩ }

/-- The settled outcome of one `fetch` call: either a completed HTTP
response (status, raw body text, transport headers) or a transport fault
(rejection before any response). -/
inductive TransportOutcome where
  | response (status : Nat) (bodyText : String) (headers : List (String × String)) : TransportOutcome
  | fault (name msg : String) : TransportOutcome

/-- `HttpHelper.command` with the transport abstracted to its settled
outcome: `fetch(...).then(handleResponse).catch(handleUnexpectedError)` —
a rejection from `handleResponse` also flows through the catch handler. -/
def command (outcome : TransportOutcome) : Except AppError AppResponse :=
  match outcome with
  | TransportOutcome.response s b h =>
    match handleResponse s b h with
    | Except.ok r => Except.ok r
    | Except.error e => handleUnexpectedError (Fault.typed e)
  | TransportOutcome.fault name msg => handleUnexpectedError (Fault.raw name msg)

/-- `HttpHelper.postAsync` (the `putAsync`/`deleteAsync` bodies are
verbatim identical apart from the HTTP method string, which does not affect
classification): on fulfilment `new Result(true, response.body)`, on
rejection `interceptError(error)`. -/
def postAsync (debug : Bool) (outcome : TransportOutcome) : Result :=
  match command outcome with
  | Except.ok response => ⟨true, response.body, none⟩
  | Except.error e => (interceptError debug e).result

/-! ## Theorems: classification, body codec, fault handling, interception -/

/-- C1: for every completed response, the classification pipeline maps the
HTTP status to an outcome per the table: any status in `[200,299]` yields a
success whose payload is the decoded body; 400 yields `BadRequestError`,
401 `UnauthorizedError`, 404 `NotFoundError`; every other status (including
1xx and 3xx) yields the base `AppError` (Generic) variant. -/
theorem classify_status_table (status : Nat) (bodyText : String)
    (rawHeaders : List (String × String)) :
    (200 ≤ status → status ≤ 299 →
      handleResponse status bodyText rawHeaders =
        Except.ok ⟨parseBody bodyText, readHeaders rawHeaders⟩)
  ∧ (status = 400 → handleResponse status bodyText rawHeaders =
        Except.error (BadRequestError.make (ErrBody.js (parseBody bodyText))
          (some (readHeaders rawHeaders))))
  ∧ (status = 401 → handleResponse status bodyText rawHeaders =
        Except.error (UnauthorizedError.make (ErrBody.js (parseBody bodyText))
          (some (readHeaders rawHeaders))))
  ∧ (status = 404 → handleResponse status bodyText rawHeaders =
        Except.error (NotFoundError.make (ErrBody.js (parseBody bodyText))
          (some (readHeaders rawHeaders))))
  ∧ (¬ (200 ≤ status ∧ status ≤ 299) → status ≠ 400 → status ≠ 401 → status ≠ 404 →
      handleResponse status bodyText rawHeaders =
        Except.error (AppError.make (ErrBody.js (parseBody bodyText))
          (some (readHeaders rawHeaders)))) := by
  refine ⟨fun h1 h2 => ?_, fun h => ?_, fun h => ?_, fun h => ?_,
    fun hr h400 h401 h404 => ?_⟩
  · have hE : isError status = false := by
      simp only [isError, Status.Ok, Status.Unassigned, Bool.or_eq_false_iff,
        decide_eq_false_iff_not, gt_iff_lt, not_lt]
      omega
    simp [handleResponse, hE]
  · subst h; rfl
  · subst h; rfl
  · subst h; rfl
  · have hE : isError status = true := by
      simp only [isError, Status.Ok, Status.Unassigned, Bool.or_eq_true,
        decide_eq_true_eq, gt_iff_lt]
      omega
    simp [handleResponse, hE, handleExpectedError, Status.BadRequest,
      Status.Unauthorized, Status.NotFound, h400, h401, h404]

/-- Witness for C1 at concrete inputs: a 2xx status, status 404, and a
redirect status 302 (outside every named case). -/
theorem classify_status_table_witness :
    handleResponse 201 "\x7b\"id\":7\x7d" [] =
      Except.ok ⟨Json.obj [("id", Json.num "7")], []⟩
  ∧ handleResponse 404 "\x7b\"reason\":\"missing\"\x7d" [] =
      Except.error (NotFoundError.make
        (ErrBody.js (Json.obj [("reason", Json.str "missing")])) (some []))
  ∧ handleResponse 302 "" [] =
      Except.error (AppError.make (ErrBody.js (Json.obj [])) (some [])) :=
  ⟨(classify_status_table 201 "\x7b\"id\":7\x7d" []).1 (by omega) (by omega),
   (classify_status_table 404 "\x7b\"reason\":\"missing\"\x7d" []).2.2.2.1 rfl,
   (classify_status_table 302 "" []).2.2.2.2 (by omega) (by omega) (by omega) (by omega)⟩

/-- C2: `parseBody` is total (never raises) and: a successful `JSON.parse`
yields the parsed value; the empty string yields the empty object `{}`;
non-empty unparseable text yields the fallback `{ bodyText }`. -/
theorem parseBody_total_spec (rawText : String) :
    (∀ v, jsonParse rawText = some v → parseBody rawText = v)
  ∧ (rawText = "" → parseBody rawText = Json.obj [])
  ∧ (jsonParse rawText = none → rawText ≠ "" →
      parseBody rawText = Json.obj [("bodyText", Json.str rawText)]) := by
  refine ⟨fun v h => ?_, fun h => ?_, fun h hne => ?_⟩
  · simp [parseBody, h]
  · subst h; rfl
  · simp [parseBody, h, hne]

/-- Witness for C2 at concrete inputs: parseable, empty, and malformed
body text. -/
theorem parseBody_total_spec_witness :
    parseBody "\x7b\"id\":7\x7d" = Json.obj [("id", Json.num "7")]
  ∧ parseBody "" = Json.obj []
  ∧ parseBody "oops" = Json.obj [("bodyText", Json.str "oops")] :=
  ⟨(parseBody_total_spec "\x7b\"id\":7\x7d").1 _ rfl,
   (parseBody_total_spec "").2.1 rfl,
   (parseBody_total_spec "oops").2.2 rfl (by decide)⟩

/-- C7: the transport fault handler always rejects (never a success), and a
fault that is already an `AppError` (or subclass) is re-rejected unchanged,
without double wrapping. -/
theorem handleUnexpectedError_rejects_and_identity (fault : Fault) (e : AppError) :
    (handleUnexpectedError fault).isOk = false
  ∧ handleUnexpectedError (Fault.typed e) = Except.error e := by
  refine ⟨?_, rfl⟩
  cases fault <;> rfl

/-- C3 counterexample: wrapping the raw network fault
`TypeError: Failed to fetch` stores the fault in the error's `body` field —
the body is not absent (`null`), contradicting the claim that the Generic
wrapper carries no body. -/
theorem transport_fault_body_not_absent :
    handleUnexpectedError (Fault.raw "TypeError" "Failed to fetch") =
      Except.error ⟨ErrorClass.appError,
        ErrBody.rawFault "TypeError" "Failed to fetch", none⟩
  ∧ ErrBody.rawFault "TypeError" "Failed to fetch" ≠ ErrBody.js Json.null :=
  ⟨rfl, fun h => ErrBody.noConfusion h⟩

/-- C3 amended: a raw transport fault is wrapped into a base `AppError`
whose `headers` are absent but whose `body` carries the original fault as
diagnostic context; the public operation then returns a failed `Result`
whose error is that Generic variant with headers absent and body equal to
the original fault in debug builds, or the redaction placeholder in
non-debug builds. -/
theorem transport_fault_wrap (debug : Bool) (name msg : String) :
    handleUnexpectedError (Fault.raw name msg) =
      Except.error (AppError.make (ErrBody.rawFault name msg) none)
  ∧ postAsync debug (TransportOutcome.fault name msg) =
      ⟨false, Json.null,
        some ⟨ErrorClass.appError,
          if debug then ErrBody.rawFault name msg
          else ErrBody.js (Json.str "Technical error"),
          none⟩⟩ := by
  refine ⟨rfl, ?_⟩
  cases debug <;> rfl

/-- C4 counterexample: in a non-debug build, intercepting a base `AppError`
logs the error object after its `body` has been overwritten — the logged
body is the placeholder, not the original pre-redaction body. -/
theorem log_after_redaction_counterexample :
    (interceptError false
        (AppError.make (ErrBody.js (Json.str "secret")) none)).logged.body
      ≠ ErrBody.js (Json.str "secret") := by
  intro h
  have h' : ErrBody.js (Json.str "Technical error") = ErrBody.js (Json.str "secret") := h
  injection h' with h1
  injection h1 with h2
  exact absurd h2 (by decide)

/-- C4 amended: `interceptError` logs the error as it stands after
redaction (the same object stored in the returned `Result`): in a debug
build, or for any named variant, the logged error is the original; for a
base `AppError` in a non-debug build the logged body is the placeholder. -/
theorem interceptError_logs_redacted (debug : Bool) (e : AppError) :
    (interceptError debug e).result.error = some (interceptError debug e).logged
  ∧ (debug = true → (interceptError debug e).logged = e)
  ∧ (e.cls ≠ ErrorClass.appError → (interceptError debug e).logged = e)
  ∧ (debug = false → e.cls = ErrorClass.appError →
      (interceptError debug e).logged =
        { e with body := ErrBody.js (Json.str "Technical error") }) := by
  refine ⟨rfl, fun h => ?_, fun h => ?_, fun h1 h2 => ?_⟩
  · subst h; simp [interceptError, constructorIsAppError]
  · simp [interceptError, constructorIsAppError, h]
  · subst h1; simp [interceptError, constructorIsAppError, h2]

/-- Witness for C4's amended theorem at concrete errors: a base `AppError`
in debug and non-debug builds, and a `BadRequestError` in a non-debug
build. -/
theorem interceptError_logs_redacted_witness :
    (interceptError false (AppError.make (ErrBody.js (Json.str "secret")) none)).result.error
      = some (interceptError false (AppError.make (ErrBody.js (Json.str "secret")) none)).logged
  ∧ (interceptError true (AppError.make (ErrBody.js (Json.str "secret")) none)).logged
      = AppError.make (ErrBody.js (Json.str "secret")) none
  ∧ (interceptError false (BadRequestError.make (ErrBody.js (Json.str "field")) none)).logged
      = BadRequestError.make (ErrBody.js (Json.str "field")) none
  ∧ (interceptError false (AppError.make (ErrBody.js (Json.str "secret")) none)).logged
      = ⟨ErrorClass.appError, ErrBody.js (Json.str "Technical error"), none⟩ :=
  ⟨(interceptError_logs_redacted false _).1,
   (interceptError_logs_redacted true _).2.1 rfl,
   (interceptError_logs_redacted false _).2.2.1 (by decide),
   (interceptError_logs_redacted false _).2.2.2 rfl rfl⟩

/-- C5: in a non-debug build, `interceptError` replaces the body of an
error whose runtime constructor is exactly the base `AppError` with the
placeholder, while errors of any named subclass keep their original body;
in a debug build no error's body is modified. -/
theorem interceptError_redaction_policy (e : AppError) :
    (e.cls = ErrorClass.appError →
      (interceptError false e).result.error =
        some { e with body := ErrBody.js (Json.str "Technical error") })
  ∧ (e.cls ≠ ErrorClass.appError →
      (interceptError false e).result.error = some e)
  ∧ (interceptError true e).result.error = some e := by
  refine ⟨fun h => ?_, fun h => ?_, ?_⟩
  · simp [interceptError, constructorIsAppError, h]
  · simp [interceptError, constructorIsAppError, h]
  · simp [interceptError, constructorIsAppError]

/-- Witness for C5 at concrete errors: a base `AppError` and the three
named variants in a non-debug build, and a base `AppError` in a debug
build. -/
theorem interceptError_redaction_policy_witness :
    (interceptError false (AppError.make (ErrBody.js (Json.str "secret")) none)).result.error
      = some ⟨ErrorClass.appError, ErrBody.js (Json.str "Technical error"), none⟩
  ∧ (interceptError false (BadRequestError.make (ErrBody.js (Json.str "field")) none)).result.error
      = some (BadRequestError.make (ErrBody.js (Json.str "field")) none)
  ∧ (interceptError false (UnauthorizedError.make (ErrBody.js (Json.str "who")) none)).result.error
      = some (UnauthorizedError.make (ErrBody.js (Json.str "who")) none)
  ∧ (interceptError false (NotFoundError.make (ErrBody.js (Json.str "where")) none)).result.error
      = some (NotFoundError.make (ErrBody.js (Json.str "where")) none)
  ∧ (interceptError true (AppError.make (ErrBody.js (Json.str "secret")) none)).result.error
      = some (AppError.make (ErrBody.js (Json.str "secret")) none) :=
  ⟨(interceptError_redaction_policy _).1 rfl,
   (interceptError_redaction_policy _).2.1 (by decide),
   (interceptError_redaction_policy _).2.1 (by decide),
   (interceptError_redaction_policy _).2.1 (by decide),
   (interceptError_redaction_policy _).2.2⟩

/-- C6: `interceptError` performs exactly one navigation for an
`UnauthorizedError` and none for any other variant, and in every case
returns a well-formed failed `Result`: `succeeded = false`, `payload`
absent (`null`), `error` present. -/
theorem interceptError_navigation (debug : Bool) (e : AppError) :
    (e.cls = ErrorClass.unauthorizedError → (interceptError debug e).navigations = 1)
  ∧ (e.cls ≠ ErrorClass.unauthorizedError → (interceptError debug e).navigations = 0)
  ∧ (interceptError debug e).result.succeeded = false
  ∧ (interceptError debug e).result.payload = Json.null
  ∧ ((interceptError debug e).result.error).isSome = true := by
  refine ⟨fun h => ?_, fun h => ?_, rfl, rfl, rfl⟩
  · simp [interceptError, instanceofUnauthorizedError, h]
  · simp [interceptError, instanceofUnauthorizedError, h]

/-- Witness for C6 at concrete errors: an `UnauthorizedError` (one
navigation) and a `NotFoundError` (no navigation). -/
theorem interceptError_navigation_witness :
    (interceptError false (UnauthorizedError.make (ErrBody.js Json.null) none)).navigations = 1
  ∧ (interceptError false (NotFoundError.make (ErrBody.js Json.null) none)).navigations = 0
  ∧ (interceptError false (UnauthorizedError.make (ErrBody.js Json.null) none)).result.succeeded = false :=
  ⟨(interceptError_navigation false _).1 rfl,
   (interceptError_navigation false _).2.1 (by decide),
   (interceptError_navigation false _).2.2.1⟩

/-- C8: every `Result` envelope produced by the mutating verbs' success
path and by `interceptError` on a failure path satisfies the invariant:
`succeeded = true` iff `error` is absent, and on failure the payload is
absent (`null`). -/
theorem result_envelope_invariant (debug : Bool) (outcome : TransportOutcome) (e : AppError) :
    ((postAsync debug outcome).succeeded = true ↔ (postAsync debug outcome).error = none)
  ∧ ((postAsync debug outcome).succeeded = false → (postAsync debug outcome).payload = Json.null)
  ∧ ((interceptError debug e).result.succeeded = true ↔
      (interceptError debug e).result.error = none)
  ∧ (interceptError debug e).result.payload = Json.null := by
  refine ⟨?_, ?_, ?_, rfl⟩
  · cases hc : command outcome with
    | ok r => simp [postAsync, hc]
    | error err => simp [postAsync, hc, interceptError]
  · cases hc : command outcome with
    | ok r => simp [postAsync, hc]
    | error err => simp [postAsync, hc, interceptError]
  · simp [interceptError]

/-- Witness for C8 at a concrete failing outcome (HTTP 500 with an empty
body): the envelope reports failure with a `null` payload. -/
theorem result_envelope_invariant_witness :
    (postAsync false (TransportOutcome.response 500 "" [])).succeeded = false
  ∧ (postAsync false (TransportOutcome.response 500 "" [])).payload = Json.null :=
  ⟨rfl, (result_envelope_invariant false (TransportOutcome.response 500 "" [])
    (AppError.make (ErrBody.js Json.null) none)).2.1 rfl⟩

/-! ## Query-string serialization (`buildQueryParams`) -/

/-- A value of a query-object property: a string scalar, `undefined`,
`null`, or an array of string elements. -/
inductive QueryValue where
  | str (s : String) : QueryValue
  | undef : QueryValue
  | null : QueryValue
  | arr (elems : List String) : QueryValue

/-- The `deleteEmptyParams` test of `buildQueryParams`:
`params[param] === undefined || params[param] === null || params[param] === ''`
(strict equality — an array is never "empty" under this test). -/
def isEmptyParam : QueryValue → Bool
  | QueryValue.undef => true
  | QueryValue.null => true
  | QueryValue.str s => s = ""
  | QueryValue.arr _ => false

/-- The string conversion `URLSearchParams` applies to a property value
(JS `String(...)`: `undefined`/`null` become their names, arrays join with
commas; arrays never reach this point in `buildQueryParams`). -/
def queryValueToString : QueryValue → String
  | QueryValue.str s => s
  | QueryValue.undef => "undefined"
  | QueryValue.null => "null"
  | QueryValue.arr xs => String.intercalate "," xs

/-- The `for (let param in params)` loop of `buildQueryParams` acting on the
local copy: drop empty-valued properties (when `deleteEmptyParams`), move
array-valued properties into `paramsAsArray`, and keep the remaining
scalars, all in property order.  Returns (remaining scalar properties as
strings, `paramsAsArray`). -/
def splitParams (deleteEmptyParams : Bool) :
    List (String × QueryValue) → List (String × String) × List (String × List String)
  | [] => ([], [])
  | (k, v) :: rest =>
    let r := splitParams deleteEmptyParams rest
    if deleteEmptyParams && isEmptyParam v then r
    else
      match v with
      | QueryValue.arr xs => (r.1, (k, xs) :: r.2)
      | _ => ((k, queryValueToString v) :: r.1, r.2)

/-- UTF-8 bytes of a character, as natural numbers. -/
def utf8Bytes (c : Char) : List Nat :=
  let n := c.toNat
  if n < 0x80 then [n]
  else if n < 0x800 then [0xC0 + n / 64, 0x80 + n % 64]
  else if n < 0x10000 then [0xE0 + n / 4096, 0x80 + (n / 64) % 64, 0x80 + n % 64]
  else [0xF0 + n / 262144, 0x80 + (n / 4096) % 64, 0x80 + (n / 64) % 64, 0x80 + n % 64]

/-- An uppercase hexadecimal digit. -/
def hexDigit (n : Nat) : Char :=
  if n < 10 then Char.ofNat ('0'.toNat + n) else Char.ofNat ('A'.toNat + n - 10)

/-- Characters the `application/x-www-form-urlencoded` serializer leaves
unescaped. -/
def isUrlUnreserved (c : Char) : Bool :=
  c.isAlphanum || c = '-' || c = '_' || c = '.' || c = '*'

/-- Percent-encode one character per the
`application/x-www-form-urlencoded` serializer used by
`URLSearchParams.toString()`. -/
def urlencodeChar (c : Char) : String :=
  if isUrlUnreserved c then String.singleton c
  else if c = ' ' then "+"
  else String.join ((utf8Bytes c).map (fun b => ⟨['%', hexDigit (b / 16), hexDigit (b % 16)]⟩))

/-- Percent-encode a string per `application/x-www-form-urlencoded`. -/
def urlencode (s : String) : String :=
  String.join (s.data.map urlencodeChar)

/-- The name/value list held by the `URLSearchParams` object after
`buildQueryParams` seeds it with the remaining scalars and appends each
element of each non-empty array under its repeated key. -/
def searchParamsEntries (query : List (String × QueryValue))
    (deleteEmptyParams : Bool) : List (String × String) :=
  let r := splitParams deleteEmptyParams query
  r.1 ++ r.2.flatMap (fun ka => ka.2.map (fun x => (ka.1, x)))

/-- `URLSearchParams.toString()`: serialize the entries as
`k=v` pairs joined by `&`, percent-encoding names and values. -/
def searchParamsToString (entries : List (String × String)) : String :=
  String.intercalate "&" (entries.map (fun kv => urlencode kv.1 ++ "=" ++ urlencode kv.2))

/-- `HttpHelper.buildQueryParams` (functional translation: the source loop
mutates only its local spread copy `params`, which corresponds to building
the remaining-property list directly). -/
def buildQueryParams (query : List (String × QueryValue))
    (deleteEmptyParams : Bool) : String :=
  searchParamsToString (searchParamsEntries query deleteEmptyParams)

/-- `HttpHelper.query`'s URL construction: the read operation appends
`'?' + buildQueryParams(query, true)` when a truthy query object is
passed. -/
def queryUrl (url : String) (query : Option (List (String × QueryValue))) : String :=
  match query with
  | some q => url ++ "?" ++ buildQueryParams q true
  | none => url

example : buildQueryParams [("tags", QueryValue.arr ["a", "b"]), ("name", QueryValue.str "")] true
    = "tags=a&tags=b" := by rfl
example : buildQueryParams [("a", QueryValue.str "x y"), ("b", QueryValue.null)] true
    = "a=x+y" := by rfl

/-- Every key of a scalar entry kept by `splitParams` is a key of the input
query object. -/
theorem splitParams_scalarKey_mem (dep : Bool) (q : List (String × QueryValue))
    (e : String × String) (h : e ∈ (splitParams dep q).1) : e.1 ∈ q.map Prod.fst := by
  induction q with
  | nil => simp [splitParams] at h
  | cons hd tl ih =>
    obtain ⟨k, v⟩ := hd
    simp only [splitParams] at h
    by_cases hc : (dep && isEmptyParam v) = true
    · rw [if_pos hc] at h
      exact List.mem_cons_of_mem _ (ih h)
    · rw [if_neg hc] at h
      cases v with
      | arr xs => exact List.mem_cons_of_mem _ (ih h)
      | str s =>
        rcases List.mem_cons.mp h with rfl | h'
        · exact List.mem_cons_self _ _
        · exact List.mem_cons_of_mem _ (ih h')
      | undef =>
        rcases List.mem_cons.mp h with rfl | h'
        · exact List.mem_cons_self _ _
        · exact List.mem_cons_of_mem _ (ih h')
      | null =>
        rcases List.mem_cons.mp h with rfl | h'
        · exact List.mem_cons_self _ _
        · exact List.mem_cons_of_mem _ (ih h')

/-- Every key of an array collected by `splitParams` is a key of the input
query object. -/
theorem splitParams_arrKey_mem (dep : Bool) (q : List (String × QueryValue))
    (p : String × List String) (h : p ∈ (splitParams dep q).2) : p.1 ∈ q.map Prod.fst := by
  induction q with
  | nil => simp [splitParams] at h
  | cons hd tl ih =>
    obtain ⟨k, v⟩ := hd
    simp only [splitParams] at h
    by_cases hc : (dep && isEmptyParam v) = true
    · rw [if_pos hc] at h
      exact List.mem_cons_of_mem _ (ih h)
    · rw [if_neg hc] at h
      cases v with
      | arr xs =>
        rcases List.mem_cons.mp h with rfl | h'
        · exact List.mem_cons_self _ _
        · exact List.mem_cons_of_mem _ (ih h')
      | str s => exact List.mem_cons_of_mem _ (ih h)
      | undef => exact List.mem_cons_of_mem _ (ih h)
      | null => exact List.mem_cons_of_mem _ (ih h)

/-- With `deleteEmptyParams` set and unique keys, an empty-valued property
leaves no trace in either output of `splitParams`. -/
theorem splitParams_drop_key (q : List (String × QueryValue)) (k : String) (v : QueryValue)
    (hnd : (q.map Prod.fst).Nodup) (hmem : (k, v) ∈ q) (hempty : isEmptyParam v = true) :
    (∀ e ∈ (splitParams true q).1, e.1 ≠ k)
  ∧ (∀ p ∈ (splitParams true q).2, p.1 ≠ k) := by
  induction q with
  | nil => simp at hmem
  | cons hd tl ih =>
    obtain ⟨k', v'⟩ := hd
    rw [List.map_cons, List.nodup_cons] at hnd
    obtain ⟨hknot, hndtl⟩ := hnd
    rcases List.mem_cons.mp hmem with heq | htl
    · injection heq with h1 h2
      subst h1; subst h2
      simp only [splitParams]
      rw [if_pos (by simp [hempty])]
      constructor
      · intro e he hek
        exact hknot (hek ▸ splitParams_scalarKey_mem true tl e he)
      · intro p hp hpk
        exact hknot (hpk ▸ splitParams_arrKey_mem true tl p hp)
    · have hkk : k' ≠ k := by
        intro h
        rw [h] at hknot
        exact hknot (List.mem_map.mpr ⟨(k, v), htl, rfl⟩)
      have ihr := ih hndtl htl
      simp only [splitParams]
      by_cases hc : (true && isEmptyParam v') = true
      · rw [if_pos hc]; exact ihr
      · rw [if_neg hc]
        cases v' with
        | arr ys =>
          refine ⟨ihr.1, fun p hp => ?_⟩
          rcases List.mem_cons.mp hp with rfl | hp'
          · exact hkk
          · exact ihr.2 p hp'
        | str s =>
          refine ⟨fun e he => ?_, ihr.2⟩
          rcases List.mem_cons.mp he with rfl | he'
          · exact hkk
          · exact ihr.1 e he'
        | undef =>
          refine ⟨fun e he => ?_, ihr.2⟩
          rcases List.mem_cons.mp he with rfl | he'
          · exact hkk
          · exact ihr.1 e he'
        | null =>
          refine ⟨fun e he => ?_, ihr.2⟩
          rcases List.mem_cons.mp he with rfl | he'
          · exact hkk
          · exact ihr.1 e he'

/-- With unique keys, an array-valued property is absent from the scalar
output and appears exactly once, with its elements, in the array output of
`splitParams`. -/
theorem splitParams_arr_key (q : List (String × QueryValue)) (k : String) (xs : List String)
    (hnd : (q.map Prod.fst).Nodup) (hmem : (k, QueryValue.arr xs) ∈ q) :
    (∀ e ∈ (splitParams true q).1, e.1 ≠ k)
  ∧ (splitParams true q).2.filter (fun p => p.1 = k) = [(k, xs)] := by
  induction q with
  | nil => simp at hmem
  | cons hd tl ih =>
    obtain ⟨k', v'⟩ := hd
    rw [List.map_cons, List.nodup_cons] at hnd
    obtain ⟨hknot, hndtl⟩ := hnd
    rcases List.mem_cons.mp hmem with heq | htl
    · injection heq with h1 h2
      subst h1; subst h2
      simp only [splitParams, isEmptyParam, Bool.and_false, Bool.false_eq_true,
        if_false]
      constructor
      · intro e he hek
        exact hknot (hek ▸ splitParams_scalarKey_mem true tl e he)
      · rw [List.filter_cons_of_pos (by simp)]
        have hnil : (splitParams true tl).2.filter (fun p => p.1 = k) = [] := by
          rw [List.filter_eq_nil_iff]
          intro p hp
          simp only [decide_eq_true_eq]
          intro hpk
          exact hknot (hpk ▸ splitParams_arrKey_mem true tl p hp)
        rw [hnil]
    · have hkk : k' ≠ k := by
        intro h
        rw [h] at hknot
        exact hknot (List.mem_map.mpr ⟨(k, QueryValue.arr xs), htl, rfl⟩)
      have ihr := ih hndtl htl
      simp only [splitParams]
      by_cases hc : (true && isEmptyParam v') = true
      · rw [if_pos hc]; exact ihr
      · rw [if_neg hc]
        cases v' with
        | arr ys =>
          refine ⟨ihr.1, ?_⟩
          rw [List.filter_cons_of_neg (by simp [hkk])]
          exact ihr.2
        | str s =>
          refine ⟨fun e he => ?_, ihr.2⟩
          rcases List.mem_cons.mp he with rfl | he'
          · exact hkk
          · exact ihr.1 e he'
        | undef =>
          refine ⟨fun e he => ?_, ihr.2⟩
          rcases List.mem_cons.mp he with rfl | he'
          · exact hkk
          · exact ihr.1 e he'
        | null =>
          refine ⟨fun e he => ?_, ihr.2⟩
          rcases List.mem_cons.mp he with rfl | he'
          · exact hkk
          · exact ihr.1 e he'

/-- If the array list holds key `k` exactly once, with elements `xs`, then
filtering the appended repeated-key entries for `k` recovers exactly the
elements of `xs`, in order, under key `k`. -/
theorem flatMap_filter_key (k : String) (xs : List String)
    (a : List (String × List String))
    (h : a.filter (fun p => p.1 = k) = [(k, xs)]) :
    (a.flatMap (fun ka => ka.2.map (fun x => (ka.1, x)))).filter (fun e => e.1 = k)
      = xs.map (fun x => (k, x)) := by
  induction a with
  | nil => simp at h
  | cons hd tl ih =>
    obtain ⟨k1, ys⟩ := hd
    by_cases hk1 : k1 = k
    · subst hk1
      rw [List.filter_cons_of_pos (by simp)] at h
      injection h with h1 h2
      injection h1 with h1a h1b
      subst h1b
      rw [List.flatMap_cons, List.filter_append]
      have hhead : (ys.map (fun x => (k1, x))).filter (fun e => e.1 = k1)
          = ys.map (fun x => (k1, x)) := by
        rw [List.filter_eq_self]
        intro e he
        obtain ⟨x, _, rfl⟩ := List.mem_map.mp he
        simp
      have htail : (tl.flatMap (fun ka => ka.2.map (fun x => (ka.1, x)))).filter
          (fun e => e.1 = k1) = [] := by
        rw [List.filter_eq_nil_iff]
        intro e he
        obtain ⟨ka, hka, he'⟩ := List.mem_flatMap.mp he
        obtain ⟨x, _, rfl⟩ := List.mem_map.mp he'
        have := List.filter_eq_nil_iff.mp h2 ka hka
        simpa using this
      rw [hhead, htail, List.append_nil]
    · rw [List.filter_cons_of_neg (by simp [hk1])] at h
      rw [List.flatMap_cons, List.filter_append]
      have hhead : (ys.map (fun x => (k1, x))).filter (fun e => e.1 = k) = [] := by
        rw [List.filter_eq_nil_iff]
        intro e he
        obtain ⟨x, _, rfl⟩ := List.mem_map.mp he
        simp [hk1]
      rw [hhead, List.nil_append]
      exact ih h

/-- `splitParams` keeps a non-empty, non-array head property as a scalar
entry (scalar output). -/
theorem splitParams_cons_scalar_fst (dep : Bool) (k : String) (v : QueryValue)
    (tl : List (String × QueryValue)) (hnarr : ∀ xs, v ≠ QueryValue.arr xs)
    (hc : (dep && isEmptyParam v) = false) :
    (splitParams dep ((k, v) :: tl)).1
      = (k, queryValueToString v) :: (splitParams dep tl).1 := by
  cases v with
  | arr xs => exact absurd rfl (hnarr xs)
  | str s =>
    simp only [splitParams]
    rw [if_neg (by simp [hc])]
  | undef =>
    simp only [splitParams]
    rw [if_neg (by simp [hc])]
  | null =>
    simp only [splitParams]
    rw [if_neg (by simp [hc])]

/-- `splitParams` on a non-empty, non-array head property leaves the array
output untouched. -/
theorem splitParams_cons_scalar_snd (dep : Bool) (k : String) (v : QueryValue)
    (tl : List (String × QueryValue)) (hnarr : ∀ xs, v ≠ QueryValue.arr xs)
    (hc : (dep && isEmptyParam v) = false) :
    (splitParams dep ((k, v) :: tl)).2 = (splitParams dep tl).2 := by
  cases v with
  | arr xs => exact absurd rfl (hnarr xs)
  | str s =>
    simp only [splitParams]
    rw [if_neg (by simp [hc])]
  | undef =>
    simp only [splitParams]
    rw [if_neg (by simp [hc])]
  | null =>
    simp only [splitParams]
    rw [if_neg (by simp [hc])]

/-- With unique keys, a surviving scalar property (non-empty, non-array) is
absent from the array output and appears exactly once, with its stringified
value, in the scalar output of `splitParams`. -/
theorem splitParams_scalar_key (q : List (String × QueryValue)) (k : String)
    (v : QueryValue) (hnd : (q.map Prod.fst).Nodup) (hmem : (k, v) ∈ q)
    (hne : isEmptyParam v = false) (hnarr : ∀ xs, v ≠ QueryValue.arr xs) :
    (splitParams true q).1.filter (fun e => e.1 = k) = [(k, queryValueToString v)]
  ∧ (∀ p ∈ (splitParams true q).2, p.1 ≠ k) := by
  induction q with
  | nil => simp at hmem
  | cons hd tl ih =>
    obtain ⟨k', v'⟩ := hd
    rw [List.map_cons, List.nodup_cons] at hnd
    obtain ⟨hknot, hndtl⟩ := hnd
    rcases List.mem_cons.mp hmem with heq | htl
    · injection heq with h1 h2
      subst h1; subst h2
      constructor
      · rw [splitParams_cons_scalar_fst true k v tl hnarr (by simp [hne]),
          List.filter_cons_of_pos (by simp)]
        have hnil : (splitParams true tl).1.filter (fun e => e.1 = k) = [] := by
          rw [List.filter_eq_nil_iff]
          intro e he
          simp only [decide_eq_true_eq]
          intro hek
          exact hknot (hek ▸ splitParams_scalarKey_mem true tl e he)
        rw [hnil]
      · rw [splitParams_cons_scalar_snd true k v tl hnarr (by simp [hne])]
        intro p hp hpk
        exact hknot (hpk ▸ splitParams_arrKey_mem true tl p hp)
    · have hkk : k' ≠ k := by
        intro h
        rw [h] at hknot
        exact hknot (List.mem_map.mpr ⟨(k, v), htl, rfl⟩)
      have ihr := ih hndtl htl
      simp only [splitParams]
      by_cases hc : (true && isEmptyParam v') = true
      · rw [if_pos hc]; exact ihr
      · rw [if_neg hc]
        cases v' with
        | arr ys =>
          refine ⟨ihr.1, fun p hp => ?_⟩
          rcases List.mem_cons.mp hp with rfl | hp'
          · exact hkk
          · exact ihr.2 p hp'
        | str s =>
          refine ⟨?_, ihr.2⟩
          rw [List.filter_cons_of_neg (by simp [hkk])]
          exact ihr.1
        | undef =>
          refine ⟨?_, ihr.2⟩
          rw [List.filter_cons_of_neg (by simp [hkk])]
          exact ihr.1
        | null =>
          refine ⟨?_, ihr.2⟩
          rw [List.filter_cons_of_neg (by simp [hkk])]
          exact ihr.1

/-- C9: for every query object with unique keys passed to the read
operation, the serialized query drops every parameter whose value is
`undefined`/`null`/the empty string, appends each element of an
array-valued parameter as a repeated key, and joins each remaining scalar
parameter into the encoded query string (it appears exactly once, with its
stringified value); in particular `\x7btags:["a","b"], name:""\x7d` yields a
query string with no `name` entry and two `tags` entries, and a query with
a surviving scalar yields the scalar joined with the repeated keys in one
encoded string. -/
theorem buildQueryParams_read_spec (q : List (String × QueryValue))
    (hnd : (q.map Prod.fst).Nodup) :
    (∀ k v, (k, v) ∈ q → isEmptyParam v = true →
      ∀ e ∈ searchParamsEntries q true, e.1 ≠ k)
  ∧ (∀ k xs, (k, QueryValue.arr xs) ∈ q →
      (searchParamsEntries q true).filter (fun e => e.1 = k) = xs.map (fun x => (k, x)))
  ∧ (∀ k v, (k, v) ∈ q → isEmptyParam v = false → (∀ xs, v ≠ QueryValue.arr xs) →
      (searchParamsEntries q true).filter (fun e => e.1 = k) = [(k, queryValueToString v)])
  ∧ queryUrl "/items" (some [("tags", QueryValue.arr ["a", "b"]), ("name", QueryValue.str "")])
      = "/items?tags=a&tags=b"
  ∧ buildQueryParams
      [("name", QueryValue.str "bob"), ("tags", QueryValue.arr ["a", "b"]),
        ("empty", QueryValue.str "")] true
      = "name=bob&tags=a&tags=b" := by
  refine ⟨?_, ?_, ?_, by rfl, by rfl⟩
  · intro k v hmem hempty e he
    obtain ⟨h1, h2⟩ := splitParams_drop_key q k v hnd hmem hempty
    simp only [searchParamsEntries] at he
    rcases List.mem_append.mp he with hl | hr
    · exact h1 e hl
    · obtain ⟨ka, hka, he'⟩ := List.mem_flatMap.mp hr
      obtain ⟨x, _, rfl⟩ := List.mem_map.mp he'
      exact h2 ka hka
  · intro k xs hmem
    obtain ⟨h1, h2⟩ := splitParams_arr_key q k xs hnd hmem
    simp only [searchParamsEntries]
    rw [List.filter_append]
    have hs : (splitParams true q).1.filter (fun e => e.1 = k) = [] := by
      rw [List.filter_eq_nil_iff]
      intro e he
      simpa using h1 e he
    rw [hs, List.nil_append]
    exact flatMap_filter_key k xs _ h2
  · intro k v hmem hne hnarr
    obtain ⟨h1, h2⟩ := splitParams_scalar_key q k v hnd hmem hne hnarr
    simp only [searchParamsEntries]
    rw [List.filter_append, h1]
    have ha : ((splitParams true q).2.flatMap
        (fun ka => ka.2.map (fun x => (ka.1, x)))).filter (fun e => e.1 = k) = [] := by
      rw [List.filter_eq_nil_iff]
      intro e he
      obtain ⟨ka, hka, he'⟩ := List.mem_flatMap.mp he
      obtain ⟨x, _, rfl⟩ := List.mem_map.mp he'
      simpa using h2 ka hka
    rw [ha, List.append_nil]

/-- Witness for C9 at the concrete queries `\x7btags:["a","b"], name:""\x7d`
and `\x7bname:"bob", tags:["a","b"], empty:""\x7d` (the latter exercising a
surviving scalar). -/
theorem buildQueryParams_read_spec_witness :
    ("tags", "a").1 ≠ "name"
  ∧ (searchParamsEntries [("tags", QueryValue.arr ["a", "b"]), ("name", QueryValue.str "")] true).filter
      (fun e => e.1 = "tags") = [("tags", "a"), ("tags", "b")]
  ∧ (searchParamsEntries [("name", QueryValue.str "bob"), ("tags", QueryValue.arr ["a", "b"]),
        ("empty", QueryValue.str "")] true).filter
      (fun e => e.1 = "name") = [("name", "bob")]
  ∧ queryUrl "/items" (some [("tags", QueryValue.arr ["a", "b"]), ("name", QueryValue.str "")])
      = "/items?tags=a&tags=b"
  ∧ buildQueryParams
      [("name", QueryValue.str "bob"), ("tags", QueryValue.arr ["a", "b"]),
        ("empty", QueryValue.str "")] true
      = "name=bob&tags=a&tags=b" :=
  ⟨(buildQueryParams_read_spec [("tags", QueryValue.arr ["a", "b"]), ("name", QueryValue.str "")]
      (by simp)).1 "name" (QueryValue.str "")
      (List.mem_cons_of_mem _ (List.mem_cons_self _ _)) rfl ("tags", "a")
      (List.mem_cons_self _ _),
   (buildQueryParams_read_spec [("tags", QueryValue.arr ["a", "b"]), ("name", QueryValue.str "")]
      (by simp)).2.1 "tags" ["a", "b"] (List.mem_cons_self _ _),
   (buildQueryParams_read_spec [("name", QueryValue.str "bob"), ("tags", QueryValue.arr ["a", "b"]),
        ("empty", QueryValue.str "")]
      (by simp)).2.2.1 "name" (QueryValue.str "bob") (List.mem_cons_self _ _) rfl
      (fun xs h => QueryValue.noConfusion h),
   (buildQueryParams_read_spec [("tags", QueryValue.arr ["a", "b"]), ("name", QueryValue.str "")]
      (by simp)).2.2.2.1,
   (buildQueryParams_read_spec [("name", QueryValue.str "bob"), ("tags", QueryValue.arr ["a", "b"]),
        ("empty", QueryValue.str "")]
      (by simp)).2.2.2.2⟩

/-! ## Reference-level model of `buildQueryParams` for the aliasing claim

The functional translation above builds the copy's final contents directly;
to state that the caller's object is not mutated, the same code is
translated once more at the level of object references: a heap of query
objects, the spread copy `let params = { ...query }` as a fresh
allocation, and each `delete params[param]` as a store to the copy's
address.  -/

/-- A query object on the JS heap. -/
abbrev QObj := List (String × QueryValue)

/-- A heap of query objects; an object reference is an index. -/
abbrev Heap := List QObj

/-- Dereference an object. -/
def heapGet (h : Heap) (p : Nat) : QObj := h.getD p []

/-- Store an object at a reference. -/
def heapSet (h : Heap) (p : Nat) (o : QObj) : Heap := h.set p o

/-- `delete o[k]`: remove a property from an object, preserving the order
of the remaining properties. -/
def objDelete (o : QObj) (k : String) : QObj := o.filter (fun kv => kv.1 ≠ k)

/-- `o[k]`: property lookup (keys are unique in a JS object). -/
def objLookup (o : QObj) (k : String) : Option QueryValue :=
  (o.find? (fun kv => kv.1 = k)).map Prod.snd

/-- One iteration of the `for (let param in params)` loop over the copy at
address `pp`: test-and-delete empty values, then move an array value into
the local `paramsAsArray` accumulator (deleting it from the copy).  Reading
a deleted property yields `undefined`, which is not an array. -/
def bqpStep (deleteEmptyParams : Bool) (pp : Nat)
    (st : Heap × List (String × List String)) (k : String) :
    Heap × List (String × List String) :=
  match objLookup (heapGet st.1 pp) k with
  | none => st
  | some v =>
    if deleteEmptyParams && isEmptyParam v then
      (heapSet st.1 pp (objDelete (heapGet st.1 pp) k), st.2)
    else
      match v with
      | QueryValue.arr xs =>
        (heapSet st.1 pp (objDelete (heapGet st.1 pp) k), st.2 ++ [(k, xs)])
      | _ => st

/-- `HttpHelper.buildQueryParams` with explicit references: `qp` is the
caller's query object; the spread copy is allocated at the fresh address
`h.length`, the loop runs over the copy's keys mutating only the copy, and
the result string is built from the surviving scalars and the collected
arrays.  Returns the final heap together with the query string. -/
def buildQueryParamsRef (h : Heap) (qp : Nat) (deleteEmptyParams : Bool) :
    Heap × String :=
  let pp := h.length
  let h1 := h ++ [heapGet h qp]
  let keys := (heapGet h qp).map Prod.fst
  let st := keys.foldl (bqpStep deleteEmptyParams pp) (h1, [])
  let scalars := (heapGet st.1 pp).map (fun kv => (kv.1, queryValueToString kv.2))
  let entries := scalars ++ st.2.flatMap (fun ka => ka.2.map (fun x => (ka.1, x)))
  (st.1, searchParamsToString entries)

example :
    (buildQueryParamsRef [[("tags", QueryValue.arr ["a", "b"]), ("name", QueryValue.str "")]] 0 true).2
      = "tags=a&tags=b" := by rfl

/-- Storing at one address leaves every other address unchanged. -/
theorem heapGet_heapSet_ne (h : Heap) (p q : Nat) (o : QObj) (hne : q ≠ p) :
    heapGet (heapSet h p o) q = heapGet h q := by
  induction h generalizing p q with
  | nil => rfl
  | cons hd tl ih =>
    cases p with
    | zero =>
      cases q with
      | zero => exact absurd rfl hne
      | succ q' => rfl
    | succ p' =>
      cases q with
      | zero => rfl
      | succ q' => exact ih p' q' (fun hq => hne (by rw [hq]))

/-- Extending the heap with a fresh object leaves existing addresses
unchanged. -/
theorem heapGet_append (h : Heap) (o : QObj) (q : Nat) (hq : q < h.length) :
    heapGet (h ++ [o]) q = heapGet h q := by
  induction h generalizing q with
  | nil => exact absurd hq (by simp)
  | cons hd tl ih =>
    cases q with
    | zero => rfl
    | succ q' => exact ih q' (by simpa using hq)

/-- One loop iteration writes only to the copy's address. -/
theorem bqpStep_frame (dep : Bool) (pp : Nat) (st : Heap × List (String × List String))
    (k : String) (q : Nat) (hne : q ≠ pp) :
    heapGet (bqpStep dep pp st k).1 q = heapGet st.1 q := by
  unfold bqpStep
  cases objLookup (heapGet st.1 pp) k with
  | none => rfl
  | some v =>
    simp only
    by_cases hc : (dep && isEmptyParam v) = true
    · rw [if_pos hc]
      exact heapGet_heapSet_ne _ _ _ _ hne
    · rw [if_neg hc]
      cases v with
      | arr xs => exact heapGet_heapSet_ne _ _ _ _ hne
      | str s => rfl
      | undef => rfl
      | null => rfl

/-- The whole loop writes only to the copy's address. -/
theorem bqpFold_frame (dep : Bool) (pp : Nat) (keys : List String)
    (st : Heap × List (String × List String)) (q : Nat) (hne : q ≠ pp) :
    heapGet ((keys.foldl (bqpStep dep pp) st).1) q = heapGet st.1 q := by
  induction keys generalizing st with
  | nil => rfl
  | cons hd tl ih =>
    rw [List.foldl_cons]
    rw [ih (bqpStep dep pp st hd)]
    exact bqpStep_frame dep pp st hd q hne

/-- C10: building a query string never mutates the caller's query object —
after `buildQueryParamsRef` returns, the object at the caller's reference
is exactly the object passed in (the loop's deletions hit only the spread
copy, which lives at a fresh address). -/
theorem buildQueryParams_no_mutation (h : Heap) (qp : Nat) (dep : Bool)
    (hq : qp < h.length) :
    heapGet (buildQueryParamsRef h qp dep).1 qp = heapGet h qp := by
  have hne : qp ≠ h.length := Nat.ne_of_lt hq
  simp only [buildQueryParamsRef]
  rw [bqpFold_frame dep h.length _ _ qp hne]
  exact heapGet_append h _ qp hq

/-- Witness for C10 at a concrete heap holding one query object with an
empty-valued and an array-valued property (both of which the loop deletes
from the copy): the caller's object is unchanged. -/
theorem buildQueryParams_no_mutation_witness :
    0 < ([[("tags", QueryValue.arr ["a", "b"]), ("name", QueryValue.str "")]] : Heap).length
  ∧ heapGet (buildQueryParamsRef
        [[("tags", QueryValue.arr ["a", "b"]), ("name", QueryValue.str "")]] 0 true).1 0
      = heapGet [[("tags", QueryValue.arr ["a", "b"]), ("name", QueryValue.str "")]] 0 :=
  ⟨by decide,
   buildQueryParams_no_mutation
     [[("tags", QueryValue.arr ["a", "b"]), ("name", QueryValue.str "")]] 0 true (by decide)⟩
